import Mathlib

/-!
Shallow embedding of the smart-water reservoir dashboard
(`models.py`, `init_db.py`, `app.py`) and verification of its
natural-language specification.

Numeric values (`water_level`, `storage`, coordinates, thresholds) are
embedded as rationals; timestamps as natural numbers (a total order is
all the code uses).
-/

namespace SmartWater

/-- A row of the `reservoirs` table (`models.py`, class `Reservoir`).
`flood_limit_level` and `design_capacity` are nullable columns. -/
structure Reservoir where
  id : Nat
  name : String
  longitude : ℚ
  latitude : ℚ
  flood_limit_level : Option ℚ
  design_capacity : Option ℚ
  deriving DecidableEq

/-- A row of the `realtime_data` table (`models.py`, class `RealtimeData`). -/
structure RealtimeData where
  id : Nat
  reservoir_id : Nat
  timestamp : Nat
  water_level : ℚ
  storage : ℚ
  deriving DecidableEq

/-- Round-half-to-even at the integer level, the rounding mode of
Python's builtin `round`. -/
def roundHalfEven (x : ℚ) : ℤ :=
  let f : ℤ := ⌊x⌋
  let frac : ℚ := x - f
  if frac < 1/2 then f
  else if 1/2 < frac then f + 1
  else if f % 2 = 0 then f else f + 1

/-- Python's `round(x, 2)`: round to two decimal places, ties to even. -/
def round2 (x : ℚ) : ℚ := (roundHalfEven (x * 100) : ℚ) / 100

/-- `app.py`, `check_flood_limit(reservoir, latest_data)`: returns
`(is_over_limit, over_value)`; `None` flood limit or missing latest
data yield `(False, None)`; a level strictly above the limit yields
`(True, round(level - limit, 2))`; otherwise `(False, None)`. -/
def check_flood_limit (reservoir : Reservoir) (latest_data : Option RealtimeData) :
    Bool × Option ℚ :=
  match reservoir.flood_limit_level with
  | none => (false, none)
  | some flood_limit =>
    match latest_data with
    | none => (false, none)
    | some d =>
      if flood_limit < d.water_level then
        (true, some (round2 (d.water_level - flood_limit)))
      else
        (false, none)

/-- The threshold evaluator exactly as the spec words it (section 4.1):
absent limit → `(false, null)`; absent reading → `(false, null)`;
`water_level > flood_limit_level` → `(true, round(difference, 2))`;
otherwise, including exact equality, `(false, null)`. -/
def check_flood_limit_spec (reservoir : Reservoir) (latest_data : Option RealtimeData) :
    Bool × Option ℚ :=
  match reservoir.flood_limit_level, latest_data with
  | none, _ => (false, none)
  | some _, none => (false, none)
  | some limit, some d =>
    if d.water_level > limit then (true, some (round2 (d.water_level - limit)))
    else (false, none)

/-- Qualitative water-level trend of the analysis report in `app.py`
`main` (the four branches producing `上涨` / `下落` / `持平` / `无法判断`). -/
inductive Trend where
  | rising
  | falling
  | flat
  | indeterminate
  deriving DecidableEq

/-- The fields the report section of `app.py` `main` derives from a
reservoir's ascending history: latest row, max/min of the water-level
column, and the change/trend versus the second-to-last row.
`changeValue = none` models the `N/A（数据不足）` branch where no change
value is computed. -/
structure Report where
  latestTime : Nat
  latestLevel : ℚ
  latestStorage : ℚ
  maxLevel : ℚ
  minLevel : ℚ
  trend : Trend
  changeValue : Option ℚ
  deriving DecidableEq

/-- The report computation of `app.py` `main` (lines 341-366): `none` on
an empty history (the code only reaches the report under
`if history_data:`); otherwise max/min over the whole water-level
column, latest fields from the last row (`iloc[-1]`), and, when the
history has at least two rows, the change versus `iloc[-2]` with the
sign deciding the trend. -/
def summarize (history : List RealtimeData) : Option Report :=
  match history with
  | [] => none
  | d :: ds =>
    let lastRec := (d :: ds).getLast (List.cons_ne_nil d ds)
    let maxL := (ds.map (fun x => x.water_level)).foldl max d.water_level
    let minL := (ds.map (fun x => x.water_level)).foldl min d.water_level
    let tc : Trend × Option ℚ :=
      match (d :: ds).dropLast.getLast? with
      | some prev =>
        let cv := lastRec.water_level - prev.water_level
        (if 0 < cv then Trend.rising
         else if cv < 0 then Trend.falling
         else Trend.flat, some cv)
      | none => (Trend.indeterminate, none)
    some { latestTime := lastRec.timestamp
           latestLevel := lastRec.water_level
           latestStorage := lastRec.storage
           maxLevel := maxL
           minLevel := minL
           trend := tc.1
           changeValue := tc.2 }

/-- The decoded `current_weather` member of the weather service's JSON
body, each field possibly absent (`dict.get` returns `None` then). -/
structure CurrentWeather where
  temperature : Option ℚ
  weathercode : Option ℤ
  deriving DecidableEq

/-- What `get_weather`'s `try` block observes of the external HTTP call:
`raise` covers every raising path (connection error, timeout,
`raise_for_status` on a non-success code, a body that is not JSON);
`ok cw` is a decoded JSON body whose `current_weather` member is `cw`
(`none` when the key is absent, matching `data.get("current_weather", {})`). -/
inductive FetchOutcome where
  | raise
  | ok (current_weather : Option CurrentWeather)
  deriving DecidableEq

/-- The dict `get_weather` returns: either the data dict
`{"temperature": ..., "weathercode": ...}` (fields possibly `None`) or
the error dict `{"error": "暂无数据"}`. -/
inductive WeatherResult where
  | data (temperature : Option ℚ) (weathercode : Option ℤ)
  | error (msg : String)
  deriving DecidableEq

/-- `app.py`, `get_weather` (body inside the cache decorator): any
exception yields the error dict; otherwise the fields are read with
`.get` from `data.get("current_weather", {})`. Total as a function of
the call outcome: the `except Exception` clause lets no failure escape. -/
def get_weather (outcome : FetchOutcome) : WeatherResult :=
  match outcome with
  | .raise => .error "暂无数据"
  | .ok none => .data none none
  | .ok (some cw) => .data cw.temperature cw.weathercode

/-- The result shape claimed by the spec's contract for `getWeather`:
either both numeric fields present, or the error variant. -/
def wellShapedResult : WeatherResult → Prop
  | .data t w => t.isSome ∧ w.isSome
  | .error m => m = "暂无数据"

/-- The decorator's time-to-live: 600 time units (10 minutes). -/
def cacheTTL : Nat := 600

/-- Modelled from the spec: the `st.cache_data(ttl=600)` decorator on
`get_weather` is framework code not part of this repository; per the
spec it keeps a process-wide table keyed by the exact argument pair,
stores success and error results alike, each entry valid for the TTL
from the time it was stored. The table is a list of entries
`(key, result, storeTime)`; a lookup at time `now` returns the result
of a stored entry for `key` still within its TTL window. -/
def lookupFresh (entries : List ((ℚ × ℚ) × WeatherResult × Nat)) (key : ℚ × ℚ)
    (now : Nat) : Option WeatherResult :=
  match entries.find? (fun e => decide (e.1 = key) && decide (now < e.2.2 + cacheTTL)) with
  | some e => some e.2.1
  | none => none

/-- Modelled from the spec: one call of the decorated `get_weather` at
time `now`; `fetch` is how the external service would answer if called.
Returns the result, the updated cache, and whether the external service
was actually called (only on a miss). -/
def cached_get_weather (entries : List ((ℚ × ℚ) × WeatherResult × Nat))
    (key : ℚ × ℚ) (now : Nat) (fetch : FetchOutcome) :
    WeatherResult × List ((ℚ × ℚ) × WeatherResult × Nat) × Bool :=
  match lookupFresh entries key now with
  | some v => (v, entries, false)
  | none =>
    let v := get_weather fetch
    (v, (key, v, now) :: entries, true)

/-- The two tables of the store, as lists in storage order. -/
structure DB where
  reservoirs : List Reservoir
  readings : List RealtimeData
  deriving DecidableEq

/-- The accumulator step realising
`ORDER BY timestamp DESC ... .first()` over a scan: keep the row with
the larger timestamp, the earlier row on ties (the tie-break the query
leaves to the store). -/
def latestStep (acc : Option RealtimeData) (x : RealtimeData) : Option RealtimeData :=
  match acc with
  | none => some x
  | some best => if best.timestamp < x.timestamp then some x else some best

/-- The per-reservoir subquery of `get_reservoirs_with_latest_data`:
filter the readings of the reservoir, take the one with maximal
timestamp, `none` when there are none. -/
def latest_for (readings : List RealtimeData) (rid : Nat) : Option RealtimeData :=
  (readings.filter (fun x => x.reservoir_id == rid)).foldl latestStep none

/-- `app.py`, `get_reservoirs_with_latest_data(session)`: every
reservoir, in storage order, paired with its latest reading. -/
def get_reservoirs_with_latest_data (db : DB) : List (Reservoir × Option RealtimeData) :=
  db.reservoirs.map (fun r => (r, latest_for db.readings r.id))

/-- How `init_db.py`'s `get_db_url` ends: a resolved URL, or the
`SystemExit(1)` raised after printing the configuration guidance. -/
inductive DbUrlResult where
  | ok (url : String)
  | exitWithCode (code : Nat)
  deriving DecidableEq

/-- `init_db.py`, `get_db_url()`: `secrets` is `st.secrets["db_url"]`
when Streamlit imports and the key is present (`none` covers both the
failed import and the missing key, the `except` path); `env` is
`os.environ.get("DATABASE_URL")`. An empty env string is falsy in
Python (`if db_url:`) and falls through to the fatal branch. -/
def get_db_url (secrets env : Option String) : DbUrlResult :=
  match secrets with
  | some u => .ok u
  | none =>
    match env with
    | some u => if u.isEmpty then .exitWithCode 1 else .ok u
    | none => .exitWithCode 1

/-- `app.py`, `get_db_path()`: `<base_dir>/data/reservoirs.db`. -/
def get_db_path (base_dir : String) : String :=
  base_dir ++ "/data/reservoirs.db"

/-- `app.py`, `get_session()`: the engine URL the dashboard actually
connects to — a fixed local sqlite file under the app directory,
taking no input from secrets or environment. -/
def get_session_url (base_dir : String) : String :=
  "sqlite:///" ++ get_db_path base_dir

/-- The referential-integrity invariant of the schema in `models.py`:
every `realtime_data.reservoir_id` references an existing reservoir. -/
def RefIntegrity (db : DB) : Prop :=
  ∀ d ∈ db.readings, ∃ r ∈ db.reservoirs, r.id = d.reservoir_id

/-- Deleting a reservoir under the `cascade="all, delete-orphan"`
relationship declared on `Reservoir.realtime_data` in `models.py`:
removing a reservoir removes all its readings with it. -/
def delete_reservoir (db : DB) (rid : Nat) : DB :=
  { reservoirs := db.reservoirs.filter (fun r => r.id != rid)
  , readings := db.readings.filter (fun d => d.reservoir_id != rid) }

/-- `init_db.py`, `init_database()`: when the reservoirs table already
has a row, skip; otherwise seed the three reservoirs and one reading
each (at the shared `now` timestamp) in a single committed transaction.
Generated ids model the autoincrement columns: the reservoirs table is
empty in the seeding branch so its ids are 1, 2, 3; reading ids
continue after the largest existing reading id. -/
def init_database (db : DB) (now : Nat) : DB :=
  if db.reservoirs.length > 0 then db
  else
    let rid := db.readings.foldl (fun a d => max a d.id) 0
    { reservoirs := db.reservoirs ++
        [ Reservoir.mk 1 "三峡水库" 111.003 30.823 (some 145.0) (some 393.0),
          Reservoir.mk 2 "丹江口水库" 111.513 32.650 (some 157.0) (some 174.0),
          Reservoir.mk 3 "小浪底水库" 112.465 34.916 (some 275.0) (some 126.0) ]
    , readings := db.readings ++
        [ RealtimeData.mk (rid + 1) 1 now 160.0 300.0,
          RealtimeData.mk (rid + 2) 2 now 158.5 140.0,
          RealtimeData.mk (rid + 3) 3 now 270.0 110.0 ] }

/-- Decimal digits of a natural number, most significant first. -/
def natDigits (n : Nat) : List Nat :=
  if _h : n < 10 then [n]
  else natDigits (n / 10) ++ [n % 10]
termination_by n
decreasing_by
  simp_wf
  omega

/-- The character of one decimal digit. -/
def digitChar (d : Nat) : Char := Char.ofNat (48 + d)

/-- The digit value of a character (junk on non-digits). -/
def charDigit (c : Char) : Nat := c.toNat - 48

/-- Decimal rendering of a natural number as characters. -/
def renderNat (n : Nat) : List Char := (natDigits n).map digitChar

/-- Read a decimal digit string back into a natural number. -/
def parseNatChars (l : List Char) : Nat :=
  l.foldl (fun a c => a * 10 + charDigit c) 0

/-- Signed decimal rendering of an integer. -/
def renderInt (i : ℤ) : List Char :=
  if i < 0 then '-' :: renderNat i.natAbs else renderNat i.natAbs

/-- Read a signed decimal string back into an integer. -/
def parseIntChars (l : List Char) : ℤ :=
  match l with
  | [] => 0
  | c :: rest =>
    if c = '-' then -(parseNatChars rest : ℤ) else (parseNatChars (c :: rest) : ℤ)

/-- Split a character list at every occurrence of `c`; always returns
one more piece than there are occurrences of `c`. -/
def splitOnChar (c : Char) : List Char → List (List Char)
  | [] => [[]]
  | x :: xs =>
    match splitOnChar c xs with
    | [] => [[]]
    | r :: rs => if x = c then [] :: r :: rs else (x :: r) :: rs

/-- Join pieces with the character `c` between consecutive pieces. -/
def joinWithChar (c : Char) : List (List Char) → List Char
  | [] => []
  | [r] => r
  | r :: rs => r ++ c :: joinWithChar c rs

/-- Exact rendering of a rational cell value as `numerator/denominator`
(an injective numeric rendering standing in for the float formatter of
the export layer, which is outside the embeddable core). -/
def renderQ (q : ℚ) : List Char := renderInt q.num ++ '/' :: renderNat q.den

/-- Read a rational cell back. -/
def parseQChars (l : List Char) : ℚ :=
  match splitOnChar '/' l with
  | [np, dp] => (parseIntChars np : ℚ) / (parseNatChars dp : ℚ)
  | _ => 0

/-- The byte-order mark `utf-8-sig` places in front of the text. -/
def bomChar : Char := '\uFEFF'

/-- The header row `时间,水位 (m),库容 (亿m³)` of the exported CSV. -/
def csvHeader : List Char := "时间,水位 (m),库容 (亿m³)".data

/-- One data row of the export: timestamp, water level and storage of
one reading, comma-separated — the row `df_report.to_csv` writes for
one record of the history frame. -/
def renderRow (d : RealtimeData) : List Char :=
  renderNat d.timestamp ++ (',' :: (renderQ d.water_level ++ (',' :: renderQ d.storage)))

/-- The CSV text of `df_report.to_csv(index=False, encoding="utf-8-sig")`
in `app.py` `main`: BOM, header line, one line per history record in
the frame's (ascending) order, every line newline-terminated. -/
def exportCsv (history : List RealtimeData) : List Char :=
  bomChar :: joinWithChar '\x0a' (csvHeader :: (history.map renderRow ++ [[]]))

/-- Parse one data row back into its `(timestamp, water_level, storage)`
triple; `none` unless it has exactly three cells. -/
def parseRow (l : List Char) : Option (Nat × ℚ × ℚ) :=
  match splitOnChar ',' l with
  | [tc, wc, sc] => some (parseNatChars tc, parseQChars wc, parseQChars sc)
  | _ => none

/-- Parse a list of data rows; `none` if any row is malformed. -/
def parseRows : List (List Char) → Option (List (Nat × ℚ × ℚ))
  | [] => some []
  | r :: rs =>
    match parseRow r, parseRows rs with
    | some t, some ts => some (t :: ts)
    | _, _ => none

/-- Re-parse an exported CSV text: demand the BOM, the exact header
line and a trailing newline, then parse every data row. -/
def parseCsv (l : List Char) : Option (List (Nat × ℚ × ℚ)) :=
  match l with
  | [] => none
  | b :: rest =>
    if b = bomChar then
      match splitOnChar '\x0a' rest with
      | [] => none
      | header :: rows =>
        if header = csvHeader then
          match rows.getLast? with
          | some [] => parseRows rows.dropLast
          | _ => none
        else none
    else none

/-- The triple of a reading the CSV row carries. -/
def rowData (d : RealtimeData) : Nat × ℚ × ℚ :=
  (d.timestamp, d.water_level, d.storage)

end SmartWater

namespace SmartWater

/-- The starting value is below a `foldl max`. -/
theorem le_foldl_max (l : List ℚ) (a : ℚ) : a ≤ l.foldl max a := by
  induction l generalizing a with
  | nil => exact le_refl a
  | cons x xs ih => exact le_trans (le_max_left a x) (ih (max a x))

/-- Every list element is below a `foldl max`. -/
theorem mem_le_foldl_max (l : List ℚ) (a : ℚ) : ∀ x ∈ l, x ≤ l.foldl max a := by
  induction l generalizing a with
  | nil => intro x hx; cases hx
  | cons y ys ih =>
    intro x hx
    rcases List.mem_cons.mp hx with h | h
    · subst h
      exact le_trans (le_max_right a x) (le_foldl_max ys (max a x))
    · exact ih (max a y) x h

/-- A `foldl max` is the start or one of the elements. -/
theorem foldl_max_mem (l : List ℚ) (a : ℚ) :
    l.foldl max a = a ∨ l.foldl max a ∈ l := by
  induction l generalizing a with
  | nil => exact Or.inl rfl
  | cons y ys ih =>
    rcases ih (max a y) with h | h
    · rcases max_cases a y with ⟨he, _⟩ | ⟨he, _⟩
      · exact Or.inl (by rw [List.foldl_cons, h, he])
      · exact Or.inr (by rw [List.foldl_cons, h, he]; exact List.mem_cons_self y ys)
    · exact Or.inr (List.mem_cons_of_mem y h)

/-- A `foldl min` is below the starting value. -/
theorem foldl_min_le (l : List ℚ) (a : ℚ) : l.foldl min a ≤ a := by
  induction l generalizing a with
  | nil => exact le_refl a
  | cons x xs ih => exact le_trans (ih (min a x)) (min_le_left a x)

/-- A `foldl min` is below every list element. -/
theorem foldl_min_le_mem (l : List ℚ) (a : ℚ) : ∀ x ∈ l, l.foldl min a ≤ x := by
  induction l generalizing a with
  | nil => intro x hx; cases hx
  | cons y ys ih =>
    intro x hx
    rcases List.mem_cons.mp hx with h | h
    · subst h
      exact le_trans (foldl_min_le ys (min a x)) (min_le_right a x)
    · exact ih (min a y) x h

/-- A `foldl min` is the start or one of the elements. -/
theorem foldl_min_mem (l : List ℚ) (a : ℚ) :
    l.foldl min a = a ∨ l.foldl min a ∈ l := by
  induction l generalizing a with
  | nil => exact Or.inl rfl
  | cons y ys ih =>
    rcases ih (min a y) with h | h
    · rcases min_cases a y with ⟨he, _⟩ | ⟨he, _⟩
      · exact Or.inl (by rw [List.foldl_cons, h, he])
      · exact Or.inr (by rw [List.foldl_cons, h, he]; exact List.mem_cons_self y ys)
    · exact Or.inr (List.mem_cons_of_mem y h)

/-- `natDigits` never returns the empty list. -/
theorem natDigits_ne_nil (n : Nat) : natDigits n ≠ [] := by
  rw [natDigits]
  split
  · simp
  · simp

/-- Every digit produced by `natDigits` is below 10. -/
theorem natDigits_lt (n : Nat) : ∀ d ∈ natDigits n, d < 10 := by
  induction n using Nat.strong_induction_on with
  | _ n ih =>
    by_cases h : n < 10
    · rw [natDigits, dif_pos h]
      intro d hd
      simp at hd
      omega
    · rw [natDigits, dif_neg h]
      intro d hd
      rcases List.mem_append.mp hd with h' | h'
      · exact ih (n / 10) (by omega) d h'
      · simp at h'
        omega

/-- Folding the decimal accumulator over `natDigits n` starting at `a`
recovers `a` shifted past the digits, plus `n`. -/
theorem foldl_natDigits (n : Nat) :
    ∀ a : Nat, (natDigits n).foldl (fun x d => x * 10 + d) a =
      a * 10 ^ (natDigits n).length + n := by
  induction n using Nat.strong_induction_on with
  | _ n ih =>
    intro a
    by_cases h : n < 10
    · rw [natDigits, dif_pos h]
      simp [pow_one]
    · rw [natDigits, dif_neg h]
      rw [List.foldl_append, List.length_append, ih (n / 10) (by omega) a]
      simp only [List.foldl_cons, List.foldl_nil, List.length_singleton]
      have hmod : n / 10 * 10 + n % 10 = n := by omega
      calc (a * 10 ^ (natDigits (n / 10)).length + n / 10) * 10 + n % 10
          = a * (10 ^ (natDigits (n / 10)).length * 10) + (n / 10 * 10 + n % 10) := by ring
        _ = a * 10 ^ ((natDigits (n / 10)).length + 1) + n := by rw [hmod, pow_succ]

/-- Reading back the character of a digit. -/
theorem charDigit_digitChar {d : Nat} (h : d < 10) : charDigit (digitChar d) = d := by
  interval_cases d <;> decide

/-- A digit character is none of the separator characters of the CSV. -/
theorem digitChar_ne_special (d : Nat) (h : d < 10) :
    digitChar d ≠ ',' ∧ digitChar d ≠ '\x0a' ∧ digitChar d ≠ '/' ∧ digitChar d ≠ '-' := by
  interval_cases d <;> exact ⟨by decide, by decide, by decide, by decide⟩

/-- Parsing a rendered natural number gives it back. -/
theorem parseNatChars_renderNat (n : Nat) : parseNatChars (renderNat n) = n := by
  unfold parseNatChars renderNat
  rw [List.foldl_map]
  rw [List.foldl_ext (fun (a : Nat) c => a * 10 + charDigit (digitChar c))
    (fun (a : Nat) d => a * 10 + d) 0
    (fun a d hd => by
      show a * 10 + charDigit (digitChar d) = a * 10 + d
      rw [charDigit_digitChar (natDigits_lt n d hd)])]
  rw [foldl_natDigits n 0]
  simp

/-- Characters of a rendered natural are never CSV separators. -/
theorem renderNat_chars (n : Nat) (c : Char) (hc : c ∈ renderNat n) :
    c ≠ ',' ∧ c ≠ '\x0a' ∧ c ≠ '/' ∧ c ≠ '-' := by
  obtain ⟨d, hd, rfl⟩ := List.mem_map.mp hc
  exact digitChar_ne_special d (natDigits_lt n d hd)

/-- Characters of a rendered integer: no comma, newline or slash. -/
theorem renderInt_chars (i : ℤ) (c : Char) (hc : c ∈ renderInt i) :
    c ≠ ',' ∧ c ≠ '\x0a' ∧ c ≠ '/' := by
  unfold renderInt at hc
  split at hc
  · rcases List.mem_cons.mp hc with h | h
    · subst h
      exact ⟨by decide, by decide, by decide⟩
    · exact ⟨(renderNat_chars _ _ h).1, (renderNat_chars _ _ h).2.1,
        (renderNat_chars _ _ h).2.2.1⟩
  · exact ⟨(renderNat_chars _ _ hc).1, (renderNat_chars _ _ hc).2.1,
      (renderNat_chars _ _ hc).2.2.1⟩

/-- Characters of a rendered rational: no comma, no newline. -/
theorem renderQ_chars (q : ℚ) (c : Char) (hc : c ∈ renderQ q) :
    c ≠ ',' ∧ c ≠ '\x0a' := by
  unfold renderQ at hc
  rcases List.mem_append.mp hc with h | h
  · exact ⟨(renderInt_chars _ _ h).1, (renderInt_chars _ _ h).2.1⟩
  · rcases List.mem_cons.mp h with h | h
    · subst h
      exact ⟨by decide, by decide⟩
    · exact ⟨(renderNat_chars _ _ h).1, (renderNat_chars _ _ h).2.1⟩

/-- `splitOnChar` never returns the empty list of pieces. -/
theorem splitOnChar_ne_nil (c : Char) (l : List Char) : splitOnChar c l ≠ [] := by
  induction l with
  | nil => simp [splitOnChar]
  | cons x xs ih =>
    rw [splitOnChar]
    rcases h : splitOnChar c xs with _ | ⟨r, rs⟩
    · exact absurd h ih
    · by_cases hx : x = c
      · simp [h, hx]
      · simp [h, hx]

/-- Splitting a piece free of the separator is the identity. -/
theorem splitOnChar_not_mem (c : Char) (l : List Char) (h : c ∉ l) :
    splitOnChar c l = [l] := by
  induction l with
  | nil => rfl
  | cons x xs ih =>
    have hx : x ≠ c := fun he => h (he ▸ List.mem_cons_self x xs)
    have hxs : c ∉ xs := fun hm => h (List.mem_cons_of_mem x hm)
    rw [splitOnChar, ih hxs]
    simp [hx]

/-- Splitting after a separator-free prefix peels that prefix off. -/
theorem splitOnChar_append (c : Char) (l₁ l₂ : List Char) (h : c ∉ l₁) :
    splitOnChar c (l₁ ++ c :: l₂) = l₁ :: splitOnChar c l₂ := by
  induction l₁ with
  | nil =>
    simp only [List.nil_append]
    rw [splitOnChar]
    rcases hsp : splitOnChar c l₂ with _ | ⟨r, rs⟩
    · exact absurd hsp (splitOnChar_ne_nil c l₂)
    · simp [hsp]
  | cons x xs ih =>
    have hx : x ≠ c := fun he => h (he ▸ List.mem_cons_self x xs)
    have hxs : c ∉ xs := fun hm => h (List.mem_cons_of_mem x hm)
    rw [List.cons_append, splitOnChar, ih hxs]
    simp [hx]

/-- Splitting a join of separator-free pieces gives the pieces back. -/
theorem splitOnChar_joinWithChar (c : Char) :
    ∀ rows : List (List Char), rows ≠ [] → (∀ r ∈ rows, c ∉ r) →
      splitOnChar c (joinWithChar c rows) = rows := by
  intro rows
  induction rows with
  | nil =>
    intro hne _
    exact absurd rfl hne
  | cons r rs ih =>
    intro _ h
    cases rs with
    | nil =>
      rw [joinWithChar]
      exact splitOnChar_not_mem c r (h r (List.mem_cons_self r []))
    | cons r₂ rs₂ =>
      rw [joinWithChar, splitOnChar_append c r _ (h r (List.mem_cons_self _ _))]
      rw [ih (List.cons_ne_nil r₂ rs₂) (fun x hx => h x (List.mem_cons_of_mem r hx))]
      exact List.cons_ne_nil r₂ rs₂

/-- Parsing a rendered integer gives it back. -/
theorem parseIntChars_renderInt (i : ℤ) : parseIntChars (renderInt i) = i := by
  unfold renderInt
  by_cases h : i < 0
  · rw [if_pos h]
    show (if ('-' : Char) = '-' then -(parseNatChars (renderNat i.natAbs) : ℤ)
      else (parseNatChars ('-' :: renderNat i.natAbs) : ℤ)) = i
    rw [if_pos rfl, parseNatChars_renderNat]
    omega
  · rw [if_neg h]
    rcases hd : natDigits i.natAbs with _ | ⟨d₀, ds⟩
    · exact absurd hd (natDigits_ne_nil _)
    · have hd₀ : d₀ < 10 := natDigits_lt _ d₀ (by rw [hd]; exact List.mem_cons_self _ _)
      have hren : renderNat i.natAbs = digitChar d₀ :: ds.map digitChar := by
        unfold renderNat
        rw [hd, List.map_cons]
      rw [hren]
      show (if digitChar d₀ = '-' then -(parseNatChars (ds.map digitChar) : ℤ)
        else (parseNatChars (digitChar d₀ :: ds.map digitChar) : ℤ)) = i
      rw [if_neg (digitChar_ne_special d₀ hd₀).2.2.2]
      rw [← hren, parseNatChars_renderNat]
      omega

/-- Parsing a rendered rational gives it back. -/
theorem parseQChars_renderQ (q : ℚ) : parseQChars (renderQ q) = q := by
  have hn : '/' ∉ renderInt q.num := fun hm => (renderInt_chars _ _ hm).2.2 rfl
  have hdnot : '/' ∉ renderNat q.den := fun hm => (renderNat_chars _ _ hm).2.2.1 rfl
  unfold renderQ parseQChars
  rw [splitOnChar_append '/' (renderInt q.num) (renderNat q.den) hn,
    splitOnChar_not_mem '/' (renderNat q.den) hdnot]
  show (parseIntChars (renderInt q.num) : ℚ) / (parseNatChars (renderNat q.den) : ℚ) = q
  rw [parseIntChars_renderInt, parseNatChars_renderNat]
  exact_mod_cast Rat.num_div_den q

/-- Parsing a rendered data row gives the reading's triple back. -/
theorem parseRow_renderRow (d : RealtimeData) :
    parseRow (renderRow d) = some (rowData d) := by
  have h1 : ',' ∉ renderNat d.timestamp := fun hm => (renderNat_chars _ _ hm).1 rfl
  have h2 : ',' ∉ renderQ d.water_level := fun hm => (renderQ_chars _ _ hm).1 rfl
  have h3 : ',' ∉ renderQ d.storage := fun hm => (renderQ_chars _ _ hm).1 rfl
  unfold renderRow parseRow
  rw [splitOnChar_append ',' (renderNat d.timestamp) _ h1,
    splitOnChar_append ',' (renderQ d.water_level) _ h2,
    splitOnChar_not_mem ',' (renderQ d.storage) h3]
  show some (parseNatChars (renderNat d.timestamp), parseQChars (renderQ d.water_level),
    parseQChars (renderQ d.storage)) = some (rowData d)
  rw [parseNatChars_renderNat, parseQChars_renderQ, parseQChars_renderQ]
  rfl

/-- A data row never contains a newline. -/
theorem newline_not_mem_renderRow (d : RealtimeData) : '\x0a' ∉ renderRow d := by
  intro hm
  unfold renderRow at hm
  rcases List.mem_append.mp hm with h | h
  · exact (renderNat_chars _ _ h).2.1 rfl
  · rcases List.mem_cons.mp h with h | h
    · exact absurd h (by decide)
    · rcases List.mem_append.mp h with h | h
      · exact (renderQ_chars _ _ h).2 rfl
      · rcases List.mem_cons.mp h with h | h
        · exact absurd h (by decide)
        · exact (renderQ_chars _ _ h).2 rfl

/-- Parsing the rendered rows of a history recovers all its triples. -/
theorem parseRows_map_renderRow (h : List RealtimeData) :
    parseRows (h.map renderRow) = some (h.map rowData) := by
  induction h with
  | nil => rfl
  | cons d ds ih =>
    simp only [List.map_cons, parseRows, parseRow_renderRow d, ih]

/-- C1: the implementation agrees with the spec's case analysis everywhere. -/
theorem check_flood_limit_eq_spec (r : Reservoir) (l : Option RealtimeData) :
    check_flood_limit r l = check_flood_limit_spec r l := by
  unfold check_flood_limit check_flood_limit_spec
  cases r.flood_limit_level with
  | none => rfl
  | some limit =>
    cases l with
    | none => rfl
    | some d => simp [gt_iff_lt]

/-- C9: only the exact null flood limit means "no threshold": with a
configured limit of 0.0 and a positive water level the evaluator
reports a breach of `round(water_level, 2)`. -/
theorem check_flood_limit_zero_threshold (r : Reservoir) (d : RealtimeData)
    (hL : r.flood_limit_level = some 0) (hw : 0 < d.water_level) :
    check_flood_limit r (some d) = (true, some (round2 d.water_level)) := by
  unfold check_flood_limit
  rw [hL]
  simp [hw, sub_zero]

/-- Witness for C9 at a reservoir with flood limit 0 and water level 1. -/
theorem check_flood_limit_zero_threshold_witness :
    (Reservoir.mk 1 "R" 0 0 (some 0) none).flood_limit_level = some 0 ∧
    (0 : ℚ) < (RealtimeData.mk 1 1 0 1 1).water_level ∧
    check_flood_limit (Reservoir.mk 1 "R" 0 0 (some 0) none)
      (some (RealtimeData.mk 1 1 0 1 1)) = (true, some (round2 1)) :=
  ⟨rfl, by norm_num, check_flood_limit_zero_threshold _ _ rfl (by norm_num)⟩

/-- C2: on a non-empty ascending history the report takes max/min over
the whole water-level column, latest fields from the last row; with at
least two rows the change is last minus second-to-last with the sign
deciding the trend; with fewer the trend is indeterminate and the
change value is an absent sentinel distinct from a real `0.0`. -/
theorem summarize_report_correct (history : List RealtimeData)
    (hne : history ≠ [])
    (hasc : List.Chain' (fun a b => a.timestamp ≤ b.timestamp) history) :
    ∃ r, summarize history = some r ∧
      r.maxLevel ∈ history.map (fun d => d.water_level) ∧
      (∀ l ∈ history.map (fun d => d.water_level), l ≤ r.maxLevel) ∧
      r.minLevel ∈ history.map (fun d => d.water_level) ∧
      (∀ l ∈ history.map (fun d => d.water_level), r.minLevel ≤ l) ∧
      r.latestTime = (history.getLast hne).timestamp ∧
      r.latestLevel = (history.getLast hne).water_level ∧
      r.latestStorage = (history.getLast hne).storage ∧
      (∀ prev, history.dropLast.getLast? = some prev →
        r.changeValue = some ((history.getLast hne).water_level - prev.water_level) ∧
        r.trend =
          (if 0 < (history.getLast hne).water_level - prev.water_level then Trend.rising
           else if (history.getLast hne).water_level - prev.water_level < 0 then Trend.falling
           else Trend.flat)) ∧
      ((history.dropLast.getLast?).isSome ↔ 2 ≤ history.length) ∧
      (history.length < 2 →
        r.trend = Trend.indeterminate ∧ r.changeValue = none ∧ r.changeValue ≠ some 0) := by
  cases history with
  | nil => exact absurd rfl hne
  | cons d ds =>
    cases ds with
    | nil =>
      refine ⟨_, rfl, ?_⟩
      simp [List.getLast]
    | cons e es =>
      have hp : (d :: e :: es).dropLast.getLast? =
          some ((d :: (e :: es).dropLast).getLast (List.cons_ne_nil _ _)) := rfl
      refine ⟨_, rfl, ?_⟩
      refine ⟨?_, ?_, ?_, ?_, ?_, ?_, ?_, ?_, ?_, ?_⟩
      · rcases foldl_max_mem ((e :: es).map (fun x => x.water_level)) d.water_level
          with h | h
        · simp only [h]
          exact List.mem_cons_self _ _
        · exact List.mem_cons_of_mem _ h
      · intro l hl
        rcases List.mem_cons.mp hl with h | h
        · subst h
          exact le_foldl_max _ _
        · exact mem_le_foldl_max _ _ l h
      · rcases foldl_min_mem ((e :: es).map (fun x => x.water_level)) d.water_level
          with h | h
        · simp only [h]
          exact List.mem_cons_self _ _
        · exact List.mem_cons_of_mem _ h
      · intro l hl
        rcases List.mem_cons.mp hl with h | h
        · subst h
          exact foldl_min_le _ _
        · exact foldl_min_le_mem _ _ l h
      · rfl
      · rfl
      · rfl
      · intro prev hprev
        rw [hp] at hprev
        cases Option.some.inj hprev
        exact ⟨rfl, rfl⟩
      · rw [hp]
        simp only [Option.isSome_some, List.length_cons, true_iff]
        omega
      · intro hlt
        simp only [List.length_cons] at hlt
        omega

/-- Witness for C2 on a concrete two-reading ascending history. -/
theorem summarize_report_correct_witness :
    ([RealtimeData.mk 1 1 0 10 5, RealtimeData.mk 2 1 1 12 6] ≠ []) ∧
    List.Chain' (fun a b => a.timestamp ≤ b.timestamp)
      [RealtimeData.mk 1 1 0 10 5, RealtimeData.mk 2 1 1 12 6] ∧
    (∃ r, summarize [RealtimeData.mk 1 1 0 10 5, RealtimeData.mk 2 1 1 12 6] = some r ∧
      r.maxLevel = 12 ∧ r.minLevel = 10 ∧ r.latestLevel = 12 ∧
      r.trend = Trend.rising ∧ r.changeValue = some 2) :=
  ⟨by decide,
    List.chain'_cons.mpr ⟨by decide, List.chain'_singleton _⟩, by
    have hval : summarize [RealtimeData.mk 1 1 0 10 5, RealtimeData.mk 2 1 1 12 6] =
        some (Report.mk 1 12 6 12 10 Trend.rising (some 2)) := by
      show some _ = _
      norm_num [List.getLast, List.getLast?, List.dropLast]
    obtain ⟨r, hr, -⟩ := summarize_report_correct
      [RealtimeData.mk 1 1 0 10 5, RealtimeData.mk 2 1 1 12 6] (by decide)
      (List.chain'_cons.mpr ⟨by decide, List.chain'_singleton _⟩)
    cases Option.some.inj (hr.symm.trans hval)
    exact ⟨_, hr, rfl, rfl, rfl, rfl, rfl⟩⟩

/-- C3 counterexample: a non-raising call whose JSON body lacks
`current_weather` makes `get_weather` return
`{"temperature": None, "weathercode": None}` — neither a pair of
numbers nor the error variant claimed by the contract. -/
theorem get_weather_shape_counterexample :
    get_weather (FetchOutcome.ok none) = WeatherResult.data none none ∧
    ¬ wellShapedResult (get_weather (FetchOutcome.ok none)) := by
  refine ⟨rfl, ?_⟩
  simp [get_weather, wellShapedResult]

/-- C3 amended: `get_weather` is total in the call outcome (never
raises), returns the error variant on every raising failure, and on a
non-raising call returns the data variant whose fields may individually
be absent when missing from the payload. -/
theorem get_weather_amended (o : FetchOutcome) :
    (get_weather o = WeatherResult.error "暂无数据" ∨
      ∃ t w, get_weather o = WeatherResult.data t w) ∧
    (o = FetchOutcome.raise → get_weather o = WeatherResult.error "暂无数据") ∧
    (∀ cw, o = FetchOutcome.ok cw → ∃ t w, get_weather o = WeatherResult.data t w) := by
  refine ⟨?_, ?_, ?_⟩
  · cases o with
    | raise => exact Or.inl rfl
    | ok cw => cases cw with
      | none => exact Or.inr ⟨none, none, rfl⟩
      | some c => exact Or.inr ⟨c.temperature, c.weathercode, rfl⟩
  · intro h; subst h; rfl
  · intro cw h
    subst h
    cases cw with
    | none => exact ⟨none, none, rfl⟩
    | some c => exact ⟨c.temperature, c.weathercode, rfl⟩

/-- Witness for C3's amended theorem at a raising call. -/
theorem get_weather_amended_witness :
    FetchOutcome.raise = FetchOutcome.raise ∧
    get_weather FetchOutcome.raise = WeatherResult.error "暂无数据" :=
  ⟨rfl, (get_weather_amended FetchOutcome.raise).2.1 rfl⟩

/-- C4: after a call at `t₁` that misses the cache and stores its
result, a call with the identical key at any `t₂` within the TTL window
returns the identical result without an external call, and a call at
`t₃` past expiry performs an external call again. -/
theorem cached_get_weather_ttl (c : List ((ℚ × ℚ) × WeatherResult × Nat))
    (key : ℚ × ℚ) (t₁ t₂ t₃ : Nat) (f₁ f₂ f₃ : FetchOutcome)
    (hmiss : lookupFresh c key t₁ = none)
    (h₁₂ : t₁ ≤ t₂) (hfresh : t₂ < t₁ + cacheTTL) (hexp : t₁ + cacheTTL ≤ t₃) :
    (cached_get_weather c key t₁ f₁).2.2 = true ∧
    cached_get_weather (cached_get_weather c key t₁ f₁).2.1 key t₂ f₂ =
      ((cached_get_weather c key t₁ f₁).1,
        (cached_get_weather c key t₁ f₁).2.1, false) ∧
    (cached_get_weather (cached_get_weather c key t₁ f₁).2.1 key t₃ f₃).2.2 = true := by
  have hfind : c.find?
      (fun e => decide (e.1 = key) && decide (t₁ < e.2.2 + cacheTTL)) = none := by
    unfold lookupFresh at hmiss
    rcases h : c.find?
        (fun e => decide (e.1 = key) && decide (t₁ < e.2.2 + cacheTTL)) with _ | e
    · exact h
    · rw [h] at hmiss
      simp at hmiss
  have hstale : ∀ e ∈ c, ¬ (e.1 = key ∧ t₁ < e.2.2 + cacheTTL) := by
    intro e he hcon
    have h := List.find?_eq_none.mp hfind e he
    simp only [Bool.and_eq_true, decide_eq_true_eq] at h
    exact h hcon
  have hcall₁ : cached_get_weather c key t₁ f₁ =
      (get_weather f₁, (key, get_weather f₁, t₁) :: c, true) := by
    unfold cached_get_weather
    rw [hmiss]
  rw [hcall₁]
  refine ⟨rfl, ?_, ?_⟩
  · have hlook : lookupFresh ((key, get_weather f₁, t₁) :: c) key t₂ =
        some (get_weather f₁) := by
      simp [lookupFresh, List.find?_cons, hfresh]
    unfold cached_get_weather
    rw [hlook]
  · have htail : ∀ e ∈ c,
        ¬ ((fun x => decide (x.1 = key) && decide (t₃ < x.2.2 + cacheTTL)) e = true) := by
      intro e he hcon
      simp only [Bool.and_eq_true, decide_eq_true_eq] at hcon
      by_cases hk : e.1 = key
      · have h₂ : ¬ (t₁ < e.2.2 + cacheTTL) := fun hlt => hstale e he ⟨hk, hlt⟩
        omega
      · exact hk hcon.1
    have hstale₃ : c.find?
        (fun e => decide (e.1 = key) && decide (t₃ < e.2.2 + cacheTTL)) = none :=
      List.find?_eq_none.mpr htail
    have hno : ¬ (t₃ < t₁ + cacheTTL) := by omega
    have hlook : lookupFresh ((key, get_weather f₁, t₁) :: c) key t₃ = none := by
      simp [lookupFresh, List.find?_cons, hstale₃, hno]
    unfold cached_get_weather
    rw [hlook]

/-- Witness for C4: empty cache, calls at times 0, 5 and 600. -/
theorem cached_get_weather_ttl_witness :
    lookupFresh [] (0, 0) 0 = none ∧ 0 ≤ 5 ∧ 5 < 0 + cacheTTL ∧ 0 + cacheTTL ≤ 600 ∧
    ((cached_get_weather [] (0, 0) 0 FetchOutcome.raise).2.2 = true ∧
      cached_get_weather (cached_get_weather [] (0, 0) 0 FetchOutcome.raise).2.1
          (0, 0) 5 FetchOutcome.raise =
        ((cached_get_weather [] (0, 0) 0 FetchOutcome.raise).1,
          (cached_get_weather [] (0, 0) 0 FetchOutcome.raise).2.1, false) ∧
      (cached_get_weather (cached_get_weather [] (0, 0) 0 FetchOutcome.raise).2.1
          (0, 0) 600 FetchOutcome.raise).2.2 = true) :=
  ⟨rfl, by decide, by decide, by decide,
    cached_get_weather_ttl [] (0, 0) 0 5 600 FetchOutcome.raise FetchOutcome.raise
      FetchOutcome.raise rfl (by decide) (by decide) (by decide)⟩

/-- A fold with `latestStep` never returns to `none`. -/
theorem latestStep_foldl_ne_none (l : List RealtimeData) (b : RealtimeData)
    (acc : Option RealtimeData) : l.foldl latestStep (latestStep acc b) ≠ none := by
  induction l generalizing acc b with
  | nil =>
    cases acc with
    | none => simp [latestStep]
    | some best =>
      simp only [List.foldl_nil, latestStep]
      split <;> simp
  | cons x xs ih =>
    rw [List.foldl_cons]
    exact ih x (latestStep acc b)

/-- A `latestStep` fold yields its start or an element of the list. -/
theorem latestStep_foldl_mem (l : List RealtimeData) (acc : Option RealtimeData)
    (d : RealtimeData) (h : l.foldl latestStep acc = some d) :
    acc = some d ∨ d ∈ l := by
  induction l generalizing acc with
  | nil => exact Or.inl h
  | cons x xs ih =>
    rw [List.foldl_cons] at h
    rcases ih (latestStep acc x) h with h' | h'
    · cases acc with
      | none =>
        simp only [latestStep] at h'
        exact Or.inr (by rw [← Option.some.inj h']; exact List.mem_cons_self x xs)
      | some best =>
        simp only [latestStep] at h'
        by_cases hlt : best.timestamp < x.timestamp
        · rw [if_pos hlt] at h'
          exact Or.inr (by rw [← Option.some.inj h']; exact List.mem_cons_self x xs)
        · rw [if_neg hlt] at h'
          exact Or.inl h'
    · exact Or.inr (List.mem_cons_of_mem x h')

/-- A `latestStep` fold dominates the start and all list timestamps. -/
theorem latestStep_foldl_ge (l : List RealtimeData) (acc : Option RealtimeData)
    (d : RealtimeData) (h : l.foldl latestStep acc = some d) :
    (∀ a, acc = some a → a.timestamp ≤ d.timestamp) ∧
    (∀ x ∈ l, x.timestamp ≤ d.timestamp) := by
  induction l generalizing acc with
  | nil =>
    refine ⟨?_, ?_⟩
    · intro a ha
      rw [ha] at h
      rw [Option.some.inj h]
    · intro x hx
      cases hx
  | cons x xs ih =>
    rw [List.foldl_cons] at h
    obtain ⟨hacc, hmem⟩ := ih (latestStep acc x) h
    have hx_le : x.timestamp ≤ d.timestamp := by
      cases acc with
      | none => exact hacc x rfl
      | some best =>
        simp only [latestStep] at hacc
        by_cases hlt : best.timestamp < x.timestamp
        · exact hacc x (by rw [if_pos hlt])
        · exact le_trans (le_of_not_lt hlt) (hacc best (by rw [if_neg hlt]))
    refine ⟨?_, ?_⟩
    · intro a ha
      subst ha
      simp only [latestStep] at hacc
      by_cases hlt : a.timestamp < x.timestamp
      · exact le_trans (le_of_lt hlt) hx_le
      · exact hacc a (by rw [if_neg hlt])
    · intro y hy
      rcases List.mem_cons.mp hy with h' | h'
      · subst h'
        exact hx_le
      · exact hmem y h'

/-- C5: the query pairs every reservoir, in storage order, with its
latest reading: a present reading belongs to the reservoir, has maximal
timestamp among its readings, and the pairing is absent exactly when
the reservoir has no readings. -/
theorem get_reservoirs_with_latest_data_correct (db : DB) :
    (get_reservoirs_with_latest_data db).map Prod.fst = db.reservoirs ∧
    ∀ r latest, (r, latest) ∈ get_reservoirs_with_latest_data db →
      (latest = none → ∀ x ∈ db.readings, x.reservoir_id ≠ r.id) ∧
      (∀ d, latest = some d → d ∈ db.readings ∧ d.reservoir_id = r.id ∧
        ∀ x ∈ db.readings, x.reservoir_id = r.id → x.timestamp ≤ d.timestamp) := by
  constructor
  · unfold get_reservoirs_with_latest_data
    induction db.reservoirs with
    | nil => rfl
    | cons a as ih =>
      simp only [List.map_cons]
      rw [ih]
  · intro r latest hmem
    obtain ⟨r₀, hr₀, heq⟩ := List.mem_map.mp hmem
    injection heq with hr hl
    subst hr
    subst hl
    constructor
    · intro hnone x hx hxid
      have hfold : (db.readings.filter
          (fun y => y.reservoir_id == r₀.id)).foldl latestStep none = none := by
        unfold latest_for at hnone
        exact hnone
      have hxin : x ∈ db.readings.filter (fun y => y.reservoir_id == r₀.id) :=
        List.mem_filter.mpr ⟨hx, by simp [hxid]⟩
      rcases hcase : db.readings.filter (fun y => y.reservoir_id == r₀.id) with _ | ⟨z, zs⟩
      · rw [hcase] at hxin
        cases hxin
      · rw [hcase, List.foldl_cons] at hfold
        exact latestStep_foldl_ne_none zs z none hfold
    · intro d hd
      have hfold : (db.readings.filter
          (fun y => y.reservoir_id == r₀.id)).foldl latestStep none = some d := by
        unfold latest_for at hd
        exact hd
      have hdin : d ∈ db.readings.filter (fun y => y.reservoir_id == r₀.id) := by
        rcases latestStep_foldl_mem _ _ _ hfold with h' | h'
        · cases h'
        · exact h'
      have hdmem := (List.mem_filter.mp hdin).1
      have hdid : d.reservoir_id = r₀.id := by
        have := (List.mem_filter.mp hdin).2
        simpa using this
      refine ⟨hdmem, hdid, ?_⟩
      intro x hx hxid
      exact (latestStep_foldl_ge _ _ _ hfold).2 x
        (List.mem_filter.mpr ⟨hx, by simp [hxid]⟩)

/-- C7 counterexample: with a connection string configured in secrets
the resolver returns it, yet the dashboard's store connection is the
fixed local sqlite URL — the resolution does not govern the
application's store access. -/
theorem db_url_governs_counterexample :
    get_db_url (some "postgresql://configured") none =
      DbUrlResult.ok "postgresql://configured" ∧
    get_session_url "/app" = "sqlite:////app/data/reservoirs.db" ∧
    get_session_url "/app" ≠ "postgresql://configured" :=
  ⟨rfl, rfl, by decide⟩

/-- C7 amended: `get_db_url` resolves the connection string from the
secrets store first, then the `DATABASE_URL` environment variable, and
exits with status 1 after printing guidance when neither yields one;
this resolution governs only the seeding script, while the dashboard
connects to a fixed local sqlite path independent of it. -/
theorem get_db_url_resolution (secrets env : Option String) :
    (∀ u, secrets = some u → get_db_url secrets env = DbUrlResult.ok u) ∧
    (∀ u, secrets = none → env = some u → u.isEmpty = false →
      get_db_url secrets env = DbUrlResult.ok u) ∧
    (secrets = none → (env = none ∨ env = some "") →
      get_db_url secrets env = DbUrlResult.exitWithCode 1) ∧
    (∀ base, get_session_url base = "sqlite:///" ++ (base ++ "/data/reservoirs.db")) := by
  refine ⟨?_, ?_, ?_, fun base => rfl⟩
  · intro u hu
    subst hu
    rfl
  · intro u hs he hne
    subst hs
    subst he
    unfold get_db_url
    simp [hne]
  · intro hs he
    subst hs
    rcases he with he | he <;> subst he <;> rfl

/-- Witness for C7's amended theorem: a secrets-configured URL wins. -/
theorem get_db_url_resolution_witness :
    (some "postgresql://u" : Option String) = some "postgresql://u" ∧
    get_db_url (some "postgresql://u") none = DbUrlResult.ok "postgresql://u" :=
  ⟨rfl, (get_db_url_resolution (some "postgresql://u") none).1 "postgresql://u" rfl⟩

/-- C8: deleting a reservoir cascades to its readings: afterwards no
reading references the deleted reservoir, and if every reading
referenced an existing reservoir before, that invariant still holds —
no orphan rows remain. -/
theorem delete_reservoir_cascade (db : DB) (rid : Nat) (hInt : RefIntegrity db) :
    (∀ d ∈ (delete_reservoir db rid).readings, d.reservoir_id ≠ rid) ∧
    RefIntegrity (delete_reservoir db rid) := by
  constructor
  · intro d hd
    have h := (List.mem_filter.mp hd).2
    simpa using h
  · intro d hd
    have hmem := (List.mem_filter.mp hd).1
    have hne : d.reservoir_id ≠ rid := by
      have h := (List.mem_filter.mp hd).2
      simpa using h
    obtain ⟨r, hr, hrid⟩ := hInt d hmem
    exact ⟨r, List.mem_filter.mpr ⟨hr, by simpa [hrid] using hne⟩, hrid⟩

/-- Witness for C8: two reservoirs, one reading each, delete id 1. -/
theorem delete_reservoir_cascade_witness :
    RefIntegrity (DB.mk
      [Reservoir.mk 1 "A" 0 0 none none, Reservoir.mk 2 "B" 0 0 none none]
      [RealtimeData.mk 1 1 0 10 5, RealtimeData.mk 2 2 0 11 6]) ∧
    ((∀ d ∈ (delete_reservoir (DB.mk
        [Reservoir.mk 1 "A" 0 0 none none, Reservoir.mk 2 "B" 0 0 none none]
        [RealtimeData.mk 1 1 0 10 5, RealtimeData.mk 2 2 0 11 6]) 1).readings,
        d.reservoir_id ≠ 1) ∧
      RefIntegrity (delete_reservoir (DB.mk
        [Reservoir.mk 1 "A" 0 0 none none, Reservoir.mk 2 "B" 0 0 none none]
        [RealtimeData.mk 1 1 0 10 5, RealtimeData.mk 2 2 0 11 6]) 1)) :=
  ⟨by unfold RefIntegrity; decide,
    delete_reservoir_cascade _ 1 (by unfold RefIntegrity; decide)⟩

/-- C10: with any reservoir row present `init_database` changes
nothing, and from an empty store running it twice equals running once. -/
theorem init_database_idempotent (db : DB) (now now₂ : Nat)
    (h : db.reservoirs ≠ []) :
    init_database db now = db ∧
    init_database (init_database (DB.mk [] []) now) now₂ =
      init_database (DB.mk [] []) now := by
  constructor
  · unfold init_database
    rw [if_pos (List.length_pos.mpr h)]
  · rfl

/-- Witness for C10 at a one-reservoir store. -/
theorem init_database_idempotent_witness :
    ((DB.mk [Reservoir.mk 1 "A" 0 0 none none] []).reservoirs ≠ []) ∧
    (init_database (DB.mk [Reservoir.mk 1 "A" 0 0 none none] []) 0 =
        DB.mk [Reservoir.mk 1 "A" 0 0 none none] [] ∧
      init_database (init_database (DB.mk [] []) 0) 1 = init_database (DB.mk [] []) 0) :=
  ⟨by decide, init_database_idempotent _ 0 1 (by decide)⟩

/-- C6: exporting a history of N readings to CSV and re-parsing the
text yields exactly the N `(timestamp, water_level, storage)` triples
of the history in its (ascending) order, and the text carries the BOM
and the header row `时间,水位 (m),库容 (亿m³)`. -/
theorem csv_round_trip (history : List RealtimeData)
    (hasc : List.Chain' (fun a b => a.timestamp ≤ b.timestamp) history) :
    parseCsv (exportCsv history) = some (history.map rowData) ∧
    (history.map rowData).length = history.length ∧
    List.Chain' (fun a b => a.1 ≤ b.1) (history.map rowData) ∧
    (exportCsv history).take (csvHeader.length + 1) = bomChar :: csvHeader := by
  have hlines : ∀ r ∈ csvHeader :: (history.map renderRow ++ [[]]), '\x0a' ∉ r := by
    intro r hr
    rcases List.mem_cons.mp hr with h | h
    · subst h
      decide
    · rcases List.mem_append.mp h with h | h
      · obtain ⟨d, hd, rfl⟩ := List.mem_map.mp h
        exact newline_not_mem_renderRow d
      · simp at h
        subst h
        simp
  have hjoin := splitOnChar_joinWithChar '\x0a'
    (csvHeader :: (history.map renderRow ++ [[]])) (List.cons_ne_nil _ _) hlines
  refine ⟨?_, List.length_map _ _, (List.chain'_map rowData).mpr hasc, ?_⟩
  · simp only [exportCsv, parseCsv, hjoin, List.getLast?_concat,
      List.dropLast_concat, parseRows_map_renderRow, if_true, reduceIte]
  · obtain ⟨x, xs, hX⟩ : ∃ x xs, history.map renderRow ++ [[]] = x :: xs := by
      cases history.map renderRow with
      | nil => exact ⟨[], [], rfl⟩
      | cons a as => exact ⟨a, as ++ [[]], List.cons_append a as [[]]⟩
    show (bomChar :: joinWithChar '\x0a'
        (csvHeader :: (history.map renderRow ++ [[]]))).take (csvHeader.length + 1) =
      bomChar :: csvHeader
    rw [hX, joinWithChar, List.take_succ_cons, List.take_left]
    exact List.cons_ne_nil x xs

/-- Witness for C6 on a concrete two-reading ascending history. -/
theorem csv_round_trip_witness :
    List.Chain' (fun a b => a.timestamp ≤ b.timestamp)
      [RealtimeData.mk 1 1 0 10 5, RealtimeData.mk 2 1 1 12 6] ∧
    (parseCsv (exportCsv [RealtimeData.mk 1 1 0 10 5, RealtimeData.mk 2 1 1 12 6]) =
        some ([RealtimeData.mk 1 1 0 10 5, RealtimeData.mk 2 1 1 12 6].map rowData) ∧
      ([RealtimeData.mk 1 1 0 10 5, RealtimeData.mk 2 1 1 12 6].map rowData).length =
        ([RealtimeData.mk 1 1 0 10 5, RealtimeData.mk 2 1 1 12 6] : List RealtimeData).length ∧
      List.Chain' (fun a b => a.1 ≤ b.1)
        ([RealtimeData.mk 1 1 0 10 5, RealtimeData.mk 2 1 1 12 6].map rowData) ∧
      (exportCsv [RealtimeData.mk 1 1 0 10 5, RealtimeData.mk 2 1 1 12 6]).take
        (csvHeader.length + 1) = bomChar :: csvHeader) :=
  ⟨List.chain'_cons.mpr ⟨by decide, List.chain'_singleton _⟩,
    csv_round_trip _ (List.chain'_cons.mpr ⟨by decide, List.chain'_singleton _⟩)⟩

/-- Witness for C5: one reservoir with two readings. -/
theorem get_reservoirs_with_latest_data_correct_witness :
    ((Reservoir.mk 1 "A" 0 0 none none, some (RealtimeData.mk 2 1 7 12 6)) ∈
      get_reservoirs_with_latest_data
        (DB.mk [Reservoir.mk 1 "A" 0 0 none none]
          [RealtimeData.mk 1 1 3 10 5, RealtimeData.mk 2 1 7 12 6])) ∧
    (RealtimeData.mk 2 1 7 12 6 ∈
        ([RealtimeData.mk 1 1 3 10 5, RealtimeData.mk 2 1 7 12 6] : List RealtimeData) ∧
      (RealtimeData.mk 2 1 7 12 6).reservoir_id = (Reservoir.mk 1 "A" 0 0 none none).id ∧
      ∀ x ∈ ([RealtimeData.mk 1 1 3 10 5, RealtimeData.mk 2 1 7 12 6] : List RealtimeData),
        x.reservoir_id = (Reservoir.mk 1 "A" 0 0 none none).id →
        x.timestamp ≤ (RealtimeData.mk 2 1 7 12 6).timestamp) :=
  ⟨by decide,
    ((get_reservoirs_with_latest_data_correct
      (DB.mk [Reservoir.mk 1 "A" 0 0 none none]
        [RealtimeData.mk 1 1 3 10 5, RealtimeData.mk 2 1 7 12 6])).2
      (Reservoir.mk 1 "A" 0 0 none none) (some (RealtimeData.mk 2 1 7 12 6))
      (by decide)).2 (RealtimeData.mk 2 1 7 12 6) rfl⟩

end SmartWater
